import Mathlib

/-!
Verification development for the BlockchainLab peer-to-peer ledger node
(`src/LAB3/blockchain_core.py` and `src/LAB3/node_common.py`).

Modelling conventions.
Transactions are Python dicts; we embed them as a record of the optional
fields the node's code paths read (`type`, `from`, `to`, `amount`,
`patient_id`, `test_name`, `tests_ordered`, `doctor`, `timestamp`,
`references_prescription_timestamp`, `prescribed_by`) plus an `extra`
association list for the remaining keys (`reason`, `notes`, `results`, ...),
so that equality of the embedded records coincides with equality of the
Python canonical encodings (`json.dumps(tx, sort_keys=True)`).
Python integers are `Int` (arbitrary precision, no overflow); block indices
and nonces, always nonnegative in the source, are `Nat`.
SHA-256 hashing of a block is modelled, as is standard for a shallow
embedding, by an injective-by-construction canonical string encoding of the
hashed fields: every claim below depends only on the hash being a
deterministic function of `(index, timestamp, transactions, previous_hash,
nonce)`, never on arithmetic properties of the digest.
The balance dictionaries (`E_CASH_BALANCES` and the various temporaries)
are embedded as insertion-ordered association lists mirroring Python dicts:
`bget` is `d.get(k, 0)`, `bset` is `d[k] = v`, `containsKey` is `k in d`.
Dictionary keys can be `None` in the source (`tx.get('from')` on a
transaction without a sender), so keys are `Option String`.
The node's coarse `self.lock` is a **non-reentrant** `threading.Lock`
(node_common.py line 58), and four operations re-acquire it while already
holding it, in purely sequential execution: `mine_block_local` (lock at
line 257, re-acquired by `get_balances_up_to_block` at 331), the
`MSG_TYPE_NEW_TRANSACTION` handler (lock at 180, re-acquired by
`get_current_balance` → `_get_balances_from_chain` at 344),
`resolve_conflicts` (lock at 285, re-acquired by
`_recalculate_all_balances` at 315), and the `MSG_TYPE_NEW_BLOCK` accept
path (lock at 207, re-acquired by `_update_balances_from_block` at 306).
Each such call hangs forever. The embedding models this faithfully: every
operation that can hit a re-acquisition returns an explicit `deadlocked`
flag together with the state as mutated **before** the freeze (mutations
already performed are visible in memory; nothing after the re-acquisition
— returns, broadcasts, reward synthesis — ever runs). Operations whose
lock-free prefix completes (local admission, every rejection path of the
block handler, non-replacing chain offers, remote admission of
non-transfer or system-sender or duplicate transactions) return normally.
For the operations the source evidently intends to complete (their entire
remainder is dead code behind the re-acquisition), a separate
`*_intended` definition gives the lock-erased semantics, used only to
exhibit the divergence between the shipped behaviour and the
specification's description in the code-bug claims.
-/

set_option maxRecDepth 10000

namespace BlockchainLab

/-- Constant `TX_TRANSFER_ECASH` from node_common.py. -/
def TX_TRANSFER_ECASH : String := "TRANSFER_ECASH"

/-- Constant `SYSTEM_ACCOUNT` from node_common.py. -/
def SYSTEM_ACCOUNT : String := "SYSTEM_BANK_001"

/-- Constant `INITIAL_SYSTEM_BALANCE` from node_common.py. -/
def INITIAL_SYSTEM_BALANCE : Int := 1000000

/-- A transaction: embedding of the Python dict, see the module docstring.
Every field the node reads by name is a typed `Option`; `extra` holds the
remaining key-value pairs so record equality is canonical-encoding
equality. -/
structure Tx where
  type : Option String
  from_ : Option String
  to_ : Option String
  amount : Option Int
  patient_id : Option String
  test_name : Option String
  tests_ordered : Option (List String)
  doctor : Option String
  timestamp : Option String
  references_prescription_timestamp : Option String
  prescribed_by : Option String
  extra : List (String × String)
deriving DecidableEq

/-- A transaction with every field absent; concrete transactions below are
built by overriding fields of this blank. -/
def blankTx : Tx :=
  ⟨none, none, none, none, none, none, none, none, none, none, none, []⟩

/-- A block, as in blockchain_core.py `Block`: the five hashed fields plus
the stored `hash` attribute (which for wire blocks need not match a
recomputation). -/
structure Block where
  index : Nat
  timestamp : String
  transactions : List Tx
  previous_hash : String
  nonce : Nat
  hash : String
deriving DecidableEq

/-- Canonical string form of an optional string field (Python `None` or a
string), used by the modelled hash encoding. -/
def encodeOptS : Option String → String
  | none => "None"
  | some s => "S:" ++ s

/-- Canonical string form of an optional integer field. -/
def encodeOptI : Option Int → String
  | none => "None"
  | some i => "I:" ++ toString i

/-- Canonical string form of an optional string-list field. -/
def encodeOptL : Option (List String) → String
  | none => "None"
  | some l => "L:" ++ String.intercalate "," l

/-- Canonical string form of the `extra` association list. -/
def encodePairs (l : List (String × String)) : String :=
  String.intercalate "," (l.map (fun p => p.1 ++ "=" ++ p.2))

/-- Canonical encoding of a transaction, modelling
`json.dumps(tx, sort_keys=True)`: a deterministic, field-order-independent
serialization. -/
def Tx.encode (t : Tx) : String :=
  "tx(" ++ encodeOptS t.type ++ ";" ++ encodeOptS t.from_ ++ ";" ++
    encodeOptS t.to_ ++ ";" ++ encodeOptI t.amount ++ ";" ++
    encodeOptS t.patient_id ++ ";" ++ encodeOptS t.test_name ++ ";" ++
    encodeOptL t.tests_ordered ++ ";" ++ encodeOptS t.doctor ++ ";" ++
    encodeOptS t.timestamp ++ ";" ++
    encodeOptS t.references_prescription_timestamp ++ ";" ++
    encodeOptS t.prescribed_by ++ ";" ++ encodePairs t.extra ++ ")"

/-- Canonical encoding of a transaction list. -/
def txsEncode (l : List Tx) : String :=
  "[" ++ String.intercalate "," (l.map Tx.encode) ++ "]"

/-- `Block.calculate_hash` from blockchain_core.py: SHA-256 over the
canonical encoding of the five content fields, modelled as the canonical
encoding itself (an ideal injective digest). -/
def calculate_hash (index : Nat) (timestamp : String) (transactions : List Tx)
    (previous_hash : String) (nonce : Nat) : String :=
  "sha256(" ++ toString index ++ ";" ++ timestamp ++ ";" ++
    txsEncode transactions ++ ";" ++ previous_hash ++ ";" ++ toString nonce ++ ")"

/-- Recomputed hash of a block's current contents
(`block.calculate_hash()`). -/
def Block.calcHash (b : Block) : String :=
  calculate_hash b.index b.timestamp b.transactions b.previous_hash b.nonce

/-- `Block.__init__`: a locally constructed block stores the hash of its
own contents. Wire blocks are arbitrary `Block` values instead. -/
def mkBlock (index : Nat) (timestamp : String) (transactions : List Tx)
    (previous_hash : String) (nonce : Nat) : Block :=
  ⟨index, timestamp, transactions, previous_hash, nonce,
    calculate_hash index timestamp transactions previous_hash nonce⟩

/-- A balance dictionary: insertion-ordered association list with unique
keys, mirroring a Python dict from principal (possibly `None`) to integer
balance. -/
abbrev Balances := List (Option String × Int)

/-- Python `d.get(k, 0)`: first value stored under `k`, defaulting to 0. -/
def bget (b : Balances) (k : Option String) : Int :=
  match b with
  | [] => 0
  | (k', v) :: rest => if k' = k then v else bget rest k

/-- Python `d[k] = v`: replace the first entry for `k`, or append a new
entry if `k` is absent. -/
def bset (b : Balances) (k : Option String) (v : Int) : Balances :=
  match b with
  | [] => [(k, v)]
  | (k', v') :: rest => if k' = k then (k', v) :: rest else (k', v') :: bset rest k v

/-- Python `k in d`. -/
def containsKey (b : Balances) (k : Option String) : Bool :=
  match b with
  | [] => false
  | (k', _) :: rest => k' = k || containsKey rest k

/-- Python `if k not in d: d[k] = 0`. -/
def ensureKey (b : Balances) (k : Option String) : Balances :=
  if containsKey b k then b else b ++ [(k, 0)]

/-- The transfer application used by `_update_balances_from_block`,
`_recalculate_all_balances`, `get_balances_up_to_block` and
`_get_balances_from_chain`: insert missing keys at zero, then
`d[sender] -= amount; d[recipient] += amount`. -/
def applyTransferEnsure (bal : Balances) (sender recipient : Option String)
    (amount : Int) : Balances :=
  let b1 := ensureKey bal sender
  let b2 := ensureKey b1 recipient
  let b3 := bset b2 sender (bget b2 sender - amount)
  bset b3 recipient (bget b3 recipient + amount)

/-- The transfer application used by `_validate_chain_balances`, the
`MSG_TYPE_NEW_BLOCK` handler and `mine_block_local`:
`d[sender] = d.get(sender, 0) - amount; d[recipient] = d.get(recipient, 0)
+ amount`. -/
def applyTransferGet (bal : Balances) (sender recipient : Option String)
    (amount : Int) : Balances :=
  let b1 := bset bal sender (bget bal sender - amount)
  bset b1 recipient (bget b1 recipient + amount)

/-- One loop iteration of the ledger replays: apply a `TransferEcash`
transaction (ensure-style, as in the four replay functions listed at
`applyTransferEnsure`), ignore every other transaction. Reads
`tx.get('from')`, `tx.get('to')` and `tx.get('amount', 0)`. -/
def transferStep (bal : Balances) (tx : Tx) : Balances :=
  if tx.type = some TX_TRANSFER_ECASH then
    applyTransferEnsure bal tx.from_ tx.to_ (tx.amount.getD 0)
  else bal

/-- Same step with the get-style application (`_validate_chain_balances`
and the block handlers); extensionally equal to `transferStep`, kept
separate for a faithful reading of each source function. -/
def transferStepGet (bal : Balances) (tx : Tx) : Balances :=
  if tx.type = some TX_TRANSFER_ECASH then
    applyTransferGet bal tx.from_ tx.to_ (tx.amount.getD 0)
  else bal

/-- The seed balances used by every replay:
`{user: 0 for user in USERS}` plus
`temp[SYSTEM_ACCOUNT] = INITIAL_SYSTEM_BALANCE`. -/
def initialBalances : Balances :=
  [(some "dr_alice", 0), (some "lab_tech_bob", 0), (some "pharm_charlie", 0),
   (some SYSTEM_ACCOUNT, INITIAL_SYSTEM_BALANCE)]

/-- Sum of all stored balances of a dictionary (total supply). -/
def balSum (b : Balances) : Int :=
  (b.map Prod.snd).sum

/-- All transactions of a chain in block order then transaction order. -/
def allTxs (chain : List Block) : List Tx :=
  (chain.map Block.transactions).flatten

/-- The full-chain replay shared verbatim by `_recalculate_all_balances`
and `_get_balances_from_chain`: seed balances, then debit/credit every
`TransferEcash` in block order then transaction order. -/
def chain_replay (chain : List Block) : Balances :=
  chain.foldl (fun bal b => b.transactions.foldl transferStep bal) initialBalances

/-- `Node._recalculate_all_balances` (the dictionary it installs as the
ledger). -/
def recalculate_all_balances (chain : List Block) : Balances :=
  chain_replay chain

/-- `Node._get_balances_from_chain`. -/
def get_balances_from_chain (chain : List Block) : Balances :=
  chain_replay chain

/-- `Node.get_current_balance`. -/
def get_current_balance (chain : List Block) (username : Option String) : Int :=
  bget (get_balances_from_chain chain) username

/-- The block loop of `Node.get_balances_up_to_block`: replay blocks,
stopping after the first block whose stored hash equals `block_hash`
(if no block matches, the whole chain is replayed). -/
def replay_up_to (bal : Balances) (block_hash : String) : List Block → Balances
  | [] => bal
  | b :: rest =>
    let bal2 := b.transactions.foldl transferStep bal
    if b.hash = block_hash then bal2 else replay_up_to bal2 block_hash rest

/-- `Node.get_balances_up_to_block`. -/
def get_balances_up_to_block (chain : List Block) (block_hash : String) : Balances :=
  replay_up_to initialBalances block_hash chain

/-- `Node._update_balances_from_block`: incremental per-block ledger
update. -/
def update_balances_from_block (bal : Balances) (blk : Block) : Balances :=
  blk.transactions.foldl transferStep bal

/-- The per-transaction loop shared verbatim by `_validate_chain_balances`
(inner loop) and the `MSG_TYPE_NEW_BLOCK` handler: walk the transactions,
failing (`none`) on the first `TransferEcash` whose non-system sender has a
running balance below `tx.get('amount', 0)`, otherwise applying it
(get-style) and continuing. -/
def validateTxsFrom (bal : Balances) : List Tx → Option Balances
  | [] => some bal
  | tx :: rest =>
    if tx.type = some TX_TRANSFER_ECASH then
      if tx.from_ ≠ some SYSTEM_ACCOUNT ∧ bget bal tx.from_ < tx.amount.getD 0 then
        none
      else
        validateTxsFrom (applyTransferGet bal tx.from_ tx.to_ (tx.amount.getD 0)) rest
    else validateTxsFrom bal rest

/-- The block loop of `Node._validate_chain_balances`, threading the
running balances through the blocks. -/
def validateChainFrom (bal : Balances) : List Block → Option Balances
  | [] => some bal
  | b :: rest =>
    match validateTxsFrom bal b.transactions with
    | none => none
    | some bal2 => validateChainFrom bal2 rest

/-- `Node._validate_chain_balances`: the full ledger-affordability replay
from genesis used by `resolve_conflicts`. -/
def validate_chain_balances (chain : List Block) : Bool :=
  (validateChainFrom initialBalances chain).isSome

/-- The `for i in range(1, len(chain))` loop of
`Blockchain.is_chain_valid`: given the previous block, check each
subsequent block's stored hash against recomputation, its `previous_hash`
link and its index increment, in that order. -/
def validLinks (prev : Block) : List Block → Bool
  | [] => true
  | b :: rest =>
    if b.hash ≠ b.calcHash then false
    else if b.previous_hash ≠ prev.hash then false
    else if b.index ≠ prev.index + 1 then false
    else validLinks b rest

/-- `Blockchain.is_chain_valid` applied to a definite target chain: false
on the empty chain; false unless the first block is a correctly hashed
genesis (`index == 0`, `previous_hash == "0"`); then the link loop. -/
def chainValidCore (target : List Block) : Bool :=
  match target with
  | [] => false
  | b0 :: rest =>
    if b0.index ≠ 0 ∨ b0.previous_hash ≠ "0" then false
    else if b0.hash ≠ b0.calcHash then false
    else validLinks b0 rest

/-- `Blockchain.is_chain_valid(chain_to_validate)` including the Python
argument handling `target_chain = chain_to_validate if chain_to_validate
else self.chain`: a `None` argument or an **empty list** argument falls
back to the node's own chain (empty lists are falsy in Python). -/
def is_chain_valid (self_chain : List Block) (chain_to_validate : Option (List Block)) : Bool :=
  let target :=
    match chain_to_validate with
    | none => self_chain
    | some c => if c.isEmpty then self_chain else c
  chainValidCore target

/-- `Blockchain.add_block`: append `block` if it links to the current tip
(`previous_hash` equals the tip's stored hash and `index` is tip index + 1),
or if the chain is empty and `block.index == 0`; otherwise report failure
(`none`) without mutating. The stored hash of `block` is not checked. -/
def add_block (chain : List Block) (block : Block) : Option (List Block) :=
  match chain.getLast? with
  | some latest =>
    if block.previous_hash = latest.hash ∧ block.index = latest.index + 1 then
      some (chain ++ [block])
    else none
  | none =>
    if block.index = 0 then some (chain ++ [block]) else none

/-- Chains built exclusively through `add_block` starting from the empty
chain. -/
inductive ReachableAdd : List Block → Prop where
  | nil : ReachableAdd []
  | step (c : List Block) (b : Block) (c' : List Block) :
      ReachableAdd c → add_block c b = some c' → ReachableAdd c'

/-- Link relation of the chain invariant, worded from the specification:
a correctly re-hashed block extending its predecessor by hash reference and
index increment. -/
def specLink (a b : Block) : Prop :=
  b.hash = b.calcHash ∧ b.previous_hash = a.hash ∧ b.index = a.index + 1

/-- Hash-free linkage check used to state what `add_block` alone
guarantees (it never inspects stored-vs-recomputed hashes). -/
def linksFrom (prev : Block) : List Block → Bool
  | [] => true
  | b :: rest =>
    if b.previous_hash ≠ prev.hash then false
    else if b.index ≠ prev.index + 1 then false
    else linksFrom b rest

/-- Last block of `p :: t`. -/
def lastOf (p : Block) : List Block → Block
  | [] => p
  | b :: rest => lastOf b rest

/-- The mutable state of one node that the claims are about: chain, pending
pool and cached ledger (`self.blockchain.chain`, `self.pending_transactions`,
`E_CASH_BALANCES`). -/
structure NodeState where
  chain : List Block
  pending : List Tx
  balances : Balances
deriving DecidableEq

/-- The shape check shared verbatim by `add_transaction_local` and the
`MSG_TYPE_NEW_TRANSACTION` handler: the dict has a `type` key, and a
`TRANSFER_ECASH` additionally has `from`, `to` and a positive integer
`amount`. -/
def valid_tx_shape (tx : Tx) : Bool :=
  tx.type.isSome &&
    (if tx.type = some TX_TRANSFER_ECASH then
      tx.from_.isSome && tx.to_.isSome &&
        (match tx.amount with
         | some a => decide (0 < a)
         | none => false)
    else true)

/-- `if 'timestamp' not in transaction: transaction['timestamp'] =
str(datetime.now())` in `add_transaction_local`; `now` is the clock
reading. -/
def stampTx (now : String) (tx : Tx) : Tx :=
  if tx.timestamp = none then { tx with timestamp := some now } else tx

/-- `Node.add_transaction_local`: shape check, then (for a non-system
transfer) the chain-confirmed balance check, then timestamp stamping,
then canonical-encoding deduplication against the pool, then append.
Returns the new state and whether the transaction was appended (and hence
gossiped). -/
def add_transaction_local (st : NodeState) (now : String) (tx : Tx) : NodeState × Bool :=
  if ¬ valid_tx_shape tx then (st, false)
  else if tx.type = some TX_TRANSFER_ECASH ∧ tx.from_ ≠ some SYSTEM_ACCOUNT ∧
      get_current_balance st.chain tx.from_ < tx.amount.getD 0 then (st, false)
  else
    let tx2 := stampTx now tx
    if tx2 ∈ st.pending then (st, false)
    else ({ st with pending := st.pending ++ [tx2] }, true)

/-- Outcome of the `MSG_TYPE_NEW_TRANSACTION` handler: the node state (at
return, or at the moment of the freeze), whether the transaction was
appended (and hence re-broadcast), and whether the handler self-deadlocked
(see the module docstring). -/
structure TxResult where
  state : NodeState
  appended : Bool
  deadlocked : Bool
deriving DecidableEq

/-- The `MSG_TYPE_NEW_TRANSACTION` branch of `Node._process_message` as
shipped: shape check (outside the lock), then under `self.lock`
deduplication by canonical encoding; for a fresh `TRANSFER_ECASH` whose
sender is not the system account the next statement is
`self.get_current_balance(...)`, which re-acquires the non-reentrant lock
inside `_get_balances_from_chain` (line 344) — the handler freezes with
nothing mutated (the balance comparison, append and broadcast are dead
code on this path). Every other candidate completes: duplicates are
dropped before the balance check, and non-transfer or system-sender
transactions are appended; no timestamp stamping. -/
def process_new_transaction (st : NodeState) (tx : Tx) : TxResult :=
  if ¬ valid_tx_shape tx then ⟨st, false, false⟩
  else if tx ∈ st.pending then ⟨st, false, false⟩
  else if tx.type = some TX_TRANSFER_ECASH ∧ tx.from_ ≠ some SYSTEM_ACCOUNT then
    ⟨st, false, true⟩
  else ⟨{ st with pending := st.pending ++ [tx] }, true, false⟩

/-- `Node._reconcile_pending_transactions`: drop every pooled transaction
whose canonical encoding appears anywhere in the (new) chain. -/
def reconcile_pending (pending : List Tx) (chain : List Block) : List Tx :=
  pending.filter (fun tx => decide (tx ∉ allTxs chain))

/-- Outcome of `Node.resolve_conflicts`: the node state (at return, or at
the moment of the freeze), the returned `replaced` flag (meaningful only
when the call returns), and whether the call self-deadlocked. -/
structure ResolveResult where
  state : NodeState
  replaced : Bool
  deadlocked : Bool
deriving DecidableEq

/-- `Node.resolve_conflicts` as shipped: under `self.lock`, a strictly
longer received chain that passes structural validity (via a temporary
`Blockchain` whose `.chain` is the received list, so
`is_chain_valid received none`) and the full affordability replay has the
local chain replaced and the pool reconciled; the next statement,
`self._recalculate_all_balances()`, then re-acquires the non-reentrant
lock (line 315) — the call freezes with the ledger still holding its old
value, and `replaced = True` and the return never execute. Shorter/equal
or invalid offers return `False` normally (their checks are lock-free). -/
def resolve_conflicts (st : NodeState) (received : List Block) : ResolveResult :=
  if st.chain.length < received.length then
    if is_chain_valid received none && validate_chain_balances received then
      ⟨⟨received, reconcile_pending st.pending received, st.balances⟩, false, true⟩
    else ⟨st, false, false⟩
  else ⟨st, false, false⟩

/-- `resolve_conflicts` with the locking slip erased (spec §4.8, and the
evident intent — everything after the recompute is dead code in the
shipped function): the replacement additionally recomputes the ledger from
scratch and returns `True`. -/
def resolve_conflicts_intended (st : NodeState) (received : List Block) :
    NodeState × Bool :=
  if st.chain.length < received.length then
    if is_chain_valid received none && validate_chain_balances received then
      (⟨received, reconcile_pending st.pending received,
        recalculate_all_balances received⟩, true)
    else (st, false)
  else (st, false)

/-- The candidate filter of `Node.mine_block_local`: walk the pool
snapshot in order; a `TransferEcash` whose non-system sender cannot afford
`tx.get('amount', 0)` against the running provisional balances is skipped
(balances untouched), every other transaction is kept (transfers
provisionally applied, get-style). Returns the kept transactions and the
final provisional balances. -/
def mine_filter (bal : Balances) : List Tx → List Tx × Balances
  | [] => ([], bal)
  | tx :: rest =>
    if tx.type = some TX_TRANSFER_ECASH then
      if tx.from_ ≠ some SYSTEM_ACCOUNT ∧ bget bal tx.from_ < tx.amount.getD 0 then
        mine_filter bal rest
      else
        let r := mine_filter (applyTransferGet bal tx.from_ tx.to_ (tx.amount.getD 0)) rest
        (tx :: r.1, r.2)
    else
      let r := mine_filter bal rest
      (tx :: r.1, r.2)

/-- `Node._generate_system_transfers_for_block` as shipped. The source
line `if not isinstance(tx, dict): continue; patient_id =
tx.get('patient_id');` puts the `patient_id` assignment after `continue`
in the body of the `if`, so it never executes; the next line
`if not patient_id:` then reads an unbound local. Every embedded
transaction is a dict, so the function raises `UnboundLocalError`
(modelled as `none`) whenever `block.transactions` is non-empty, and
returns the empty reward list for an empty block. -/
def generate_system_transfers_buggy (block : Block) : Option (List Tx) :=
  match block.transactions with
  | [] => some []
  | _ :: _ => none

/-- Patient history as computed by the inner `get_history_from_copy`:
transactions of the chain copy whose `patient_id` matches, skipping blocks
with `b.index > block_index`, in chain order. -/
def get_history_from_copy (pid : String) (chain_copy : List Block)
    (block_index : Nat) : List Tx :=
  ((chain_copy.filter (fun b => decide (b.index ≤ block_index))).map
    (fun b => b.transactions.filter (fun t => t.patient_id = some pid))).flatten

/-- Membership test `tx.get('test_name') in prev_tx.get('tests_ordered',
[])` (Python `None in l` is false for a list of strings). -/
def optMem (x : Option String) (l : List String) : Bool :=
  match x with
  | some s => l.contains s
  | none => false

/-- The reward transaction synthesized for a matched lab test
(`500` units, system account to ordering doctor). -/
def lab_reward_tx (d : String) (tn : String) (now : String) : Tx :=
  { blankTx with
      type := some TX_TRANSFER_ECASH, from_ := some SYSTEM_ACCOUNT,
      to_ := some d, amount := some 500, timestamp := some now,
      extra := [("reason", "Reward for Lab Test Order (" ++ tn ++ ")")] }

/-- The reward transaction synthesized for a matched prescription fill
(`700` units, system account to prescribing doctor). -/
def fill_reward_tx (d : String) (now : String) : Tx :=
  { blankTx with
      type := some TX_TRANSFER_ECASH, from_ := some SYSTEM_ACCOUNT,
      to_ := some d, amount := some 700, timestamp := some now,
      extra := [("reason", "Reward for Prescription Fill")] }

/-- Reward matching for one transaction of the accepted block, translating
the loop body of `_generate_system_transfers_for_block` as its dead code
reads (i.e. with `patient_id = tx.get('patient_id')` actually executed):
this is the behaviour §4.9 of the specification describes.
A falsy (`None` or empty) patient id yields nothing. A `LAB_TEST_RESULT`
is matched against the reversed patient history to the first (most recent)
`DOCTOR_CONSULTATION` whose `tests_ordered` contains the result's
`test_name`; a `PRESCRIPTION_FILLED` to the first (most recent)
`PRESCRIPTION` whose `timestamp` equals the fill's referenced timestamp.
A falsy (missing or empty) doctor on the matched record yields nothing. -/
def reward_for_tx (chain_copy : List Block) (block_index : Nat) (now : String)
    (tx : Tx) : Option Tx :=
  match tx.patient_id with
  | none => none
  | some pid =>
    if pid = "" then none
    else if tx.type = some "LAB_TEST_RESULT" then
      let history := get_history_from_copy pid chain_copy block_index
      match history.reverse.find? (fun prev =>
          prev.type = some "DOCTOR_CONSULTATION" &&
          optMem tx.test_name (prev.tests_ordered.getD []) &&
          prev.patient_id = some pid) with
      | some prev =>
        match prev.doctor with
        | some d =>
          if d = "" then none
          else
            match tx.test_name with
            | some tn => some (lab_reward_tx d tn now)
            | none => none
        | none => none
      | none => none
    else if tx.type = some "PRESCRIPTION_FILLED" then
      let history := get_history_from_copy pid chain_copy block_index
      match history.reverse.find? (fun prev =>
          prev.type = some "PRESCRIPTION" &&
          prev.timestamp = tx.references_prescription_timestamp &&
          prev.patient_id = some pid) with
      | some prev =>
        match prev.prescribed_by with
        | some d => if d = "" then none else some (fill_reward_tx d now)
        | none => none
      | none => none
    else none

/-- `_generate_system_transfers_for_block` as intended (specification
§4.9, equal to the shipped function's dead matching logic): one optional
reward per transaction of the accepted block, searched over the chain copy
taken after the block was appended. -/
def generate_system_transfers_intended (chain_copy : List Block) (block : Block)
    (now : String) : List Tx :=
  block.transactions.filterMap (reward_for_tx chain_copy block.index now)

/-- Outward effects of the `MSG_TYPE_NEW_BLOCK` handler. The handler
never sends anything to the originating peer on a failed check
(`errorToOrigin` is false on every path of the source); `deadlocked`
records the self-deadlock of the accept path (see `accept_block`), which
freezes the node before the re-broadcast and the reward admissions. -/
structure BlockEffects where
  requestChain : Bool
  broadcastBlock : Bool
  rewards : List Tx
  errorToOrigin : Bool
  deadlocked : Bool
deriving DecidableEq

/-- No outward effect. -/
def noEffects : BlockEffects := ⟨false, false, [], false, false⟩

/-- The accepted-block mutation of the `MSG_TYPE_NEW_BLOCK` handler as
shipped: under `self.lock`, `add_block` appends the block (line 211) and
the pool is purged of exact canonical matches (line 213); the next
statement, `self._update_balances_from_block(data)` (line 214),
re-acquires the non-reentrant lock (line 306) — the handler freezes with
the ledger not updated, and reward synthesis and the re-broadcast never
run. -/
def accept_block (st : NodeState) (blk : Block) : NodeState × BlockEffects :=
  (⟨st.chain ++ [blk],
    st.pending.filter (fun tx => decide (tx ∉ blk.transactions)),
    st.balances⟩,
   ⟨false, false, [], false, true⟩)

/-- The `MSG_TYPE_NEW_BLOCK` branch of `Node._process_message`: index
check against the expected next index, `previous_hash` check against the
tip (failure of which additionally issues a `RequestChain` broadcast),
stored-hash recomputation check, then the affordability replay of the
block's transfers against the parent snapshot
(`get_balances_up_to_block(data.previous_hash)`); on success the block is
accepted. Every failure is a silent drop. -/
def process_new_block (st : NodeState) (blk : Block) : NodeState × BlockEffects :=
  match st.chain.getLast? with
  | none =>
    if blk.index ≠ 0 then (st, noEffects)
    else if blk.hash ≠ blk.calcHash then (st, noEffects)
    else if (validateTxsFrom (get_balances_up_to_block st.chain blk.previous_hash)
        blk.transactions).isSome then accept_block st blk
    else (st, noEffects)
  | some latest =>
    if blk.index ≠ latest.index + 1 then (st, noEffects)
    else if blk.previous_hash ≠ latest.hash then
      (st, { noEffects with requestChain := true })
    else if blk.hash ≠ blk.calcHash then (st, noEffects)
    else if (validateTxsFrom (get_balances_up_to_block st.chain blk.previous_hash)
        blk.transactions).isSome then accept_block st blk
    else (st, noEffects)

/-- The acceptance condition of the `MSG_TYPE_NEW_BLOCK` handler, phrased
as in claim C3: correct next index, matching `previous_hash` (when a tip
exists), correct stored hash, and an affordable parent-snapshot replay. -/
def block_accept_cond (st : NodeState) (blk : Block) : Bool :=
  (match st.chain.getLast? with
   | none => decide (blk.index = 0)
   | some latest =>
     decide (blk.index = latest.index + 1) && decide (blk.previous_hash = latest.hash))
  && decide (blk.hash = blk.calcHash)
  && (validateTxsFrom (get_balances_up_to_block st.chain blk.previous_hash)
      blk.transactions).isSome

/-- Result of `Node.mine_block_local` (and of its lock-erased intended
variant): the state at return or at the freeze, the mined block (if any),
the synthesized rewards the caller would admit, whether the call
self-deadlocked (shipped code), and whether reward synthesis raised
`UnboundLocalError` (reachable only with the locking slip erased; see
`generate_system_transfers_buggy`). -/
structure MineResult where
  state : NodeState
  mined : Option Block
  rewards : List Tx
  deadlocked : Bool
  crashed : Bool
deriving DecidableEq

/-- `Node.mine_block_local` as shipped: the empty-pool and missing-tip
checks return `False` normally, but with a non-empty pool and a tip the
next statement, `self.get_balances_up_to_block(latest_block.hash)`
(line 261), re-acquires the non-reentrant lock held since line 257
(`with self.lock` at line 331) — the call freezes before any filtering,
and no block is ever assembled, appended or broadcast and no pool entry
purged. -/
def mine_block_local (st : NodeState) (now : String) : MineResult :=
  if st.pending = [] then ⟨st, none, [], false, false⟩
  else
    match st.chain.getLast? with
    | none => ⟨st, none, [], false, false⟩
    | some _ => ⟨st, none, [], true, false⟩

/-- `mine_block_local` with the locking slips erased (spec §4.6, and the
evident intent — everything from the balance snapshot on is dead code in
the shipped function): no-op if the pool is empty, the chain has no tip,
or no pooled transaction survives `mine_filter` against the balances
replayed up to the tip; otherwise assemble a block of the survivors
referencing the tip, `add_block` it, purge the included transactions from
the pool by exact canonical match, update the ledger, and run reward
synthesis — which, in the shipped generator, raises `UnboundLocalError`
on any non-empty block (claim C9), suppressing the broadcast and the
reward admissions. -/
def mine_block_local_intended (st : NodeState) (now : String) : MineResult :=
  if st.pending = [] then ⟨st, none, [], false, false⟩
  else
    match st.chain.getLast? with
    | none => ⟨st, none, [], false, false⟩
    | some latest =>
      let temp := get_balances_up_to_block st.chain latest.hash
      let kept := (mine_filter temp st.pending).1
      if kept = [] then ⟨st, none, [], false, false⟩
      else
        let new_block := mkBlock (latest.index + 1) now kept latest.hash 0
        match add_block st.chain new_block with
        | some chain2 =>
          let st2 : NodeState :=
            ⟨chain2,
             st.pending.filter (fun tx => decide (tx ∉ kept)),
             update_balances_from_block st.balances new_block⟩
          match generate_system_transfers_buggy new_block with
          | none => ⟨st2, some new_block, [], false, true⟩
          | some rtx => ⟨st2, some new_block, rtx, false, false⟩
        | none => ⟨st, none, [], false, false⟩

/-- Admissibility to the pending pool as worded by claim C4 and §4.5 of
the specification: a `type` tag is present; a `TRANSFER_ECASH`
additionally carries `from`, `to` and a strictly positive integer
`amount`, and a non-system sender's chain-confirmed balance covers the
amount. -/
def admissible (chain : List Block) (tx : Tx) : Bool :=
  tx.type.isSome &&
    (if tx.type = some TX_TRANSFER_ECASH then
      tx.from_.isSome && tx.to_.isSome &&
        (match tx.amount with
         | some a => decide (0 < a)
         | none => false) &&
        (if tx.from_ ≠ some SYSTEM_ACCOUNT then
          decide (tx.amount.getD 0 ≤ get_current_balance chain tx.from_)
        else true)
    else true)

/-- The genesis transaction `{"type": "genesis", "details": "The
beginning"}`. -/
def txGenesis : Tx :=
  { blankTx with type := some "genesis", extra := [("details", "The beginning")] }

/-- A correctly hashed genesis block, as `create_genesis_block` builds
(concrete timestamp `"t0"`). -/
def gBlock : Block := mkBlock 0 "t0" [txGenesis] "0" 0

/-- A concrete patient-registration transaction. -/
def txReg : Tx :=
  { blankTx with
      type := some "PATIENT_REGISTRATION", patient_id := some "p1",
      timestamp := some "tr" }

/-- A transfer with a negative amount, as a malicious or corrupted wire
block may carry (admission only checks positivity for transactions
entering the pool, not for transactions inside received chains). -/
def txNeg : Tx :=
  { blankTx with
      type := some TX_TRANSFER_ECASH, from_ := some "u1",
      to_ := some "u2", amount := some (-100), timestamp := some "tn" }

/-- A single raw wire block carrying the negative transfer. -/
def blkNeg : Block := ⟨0, "t", [txNeg], "0", 0, "h"⟩

/-- The one-block chain refuting claim C2 as stated. -/
def cBad : List Block := [blkNeg]

/-- A system-account transfer of 100 units to the doctor. -/
def txSys : Tx :=
  { blankTx with
      type := some TX_TRANSFER_ECASH, from_ := some SYSTEM_ACCOUNT,
      to_ := some "dr_alice", amount := some 100, timestamp := some "ts" }

/-- Block 1 carrying the system transfer, linked to the genesis block. -/
def blkSys : Block := mkBlock 1 "t1s" [txSys] gBlock.hash 0

/-- A structurally valid, affordability-valid two-block chain. -/
def cGood : List Block := [gBlock, blkSys]

/-- Block 1 carrying the registration transaction, linked to genesis. -/
def blkReg : Block := mkBlock 1 "t1r" [txReg] gBlock.hash 0

/-- A valid two-block chain offered by a peer. -/
def chainR : List Block := [gBlock, blkReg]

/-- A node state holding only the genesis block, with the registration
transaction pending. -/
def st1 : NodeState := ⟨[gBlock], [txReg], initialBalances⟩

/-- A node state holding only the genesis block, with an empty pool. -/
def st3 : NodeState := ⟨[gBlock], [], initialBalances⟩

/-- A wire block whose index does not extend the genesis tip. -/
def blkBad : Block := mkBlock 5 "t5" [] "zz" 0

/-- An admissible system transfer used to exercise admission. -/
def tx4 : Tx :=
  { blankTx with
      type := some TX_TRANSFER_ECASH, from_ := some SYSTEM_ACCOUNT,
      to_ := some "dr_alice", amount := some 10, timestamp := some "t4" }

/-- An affordable non-system transfer: dr_alice (chain balance 100 on
`cGood`) sends 50 to the lab technician. -/
def txA : Tx :=
  { blankTx with
      type := some TX_TRANSFER_ECASH, from_ := some "dr_alice",
      to_ := some "lab_tech_bob", amount := some 50, timestamp := some "ta" }

/-- A node state whose chain is `cGood` (so dr_alice holds 100) with an
empty pool. -/
def stC4 : NodeState := ⟨cGood, [], initialBalances⟩

/-- An index-0 block whose `previous_hash` is not the genesis sentinel:
`add_block` accepts it on an empty chain, `is_chain_valid` rejects the
result. -/
def badB : Block := mkBlock 0 "tb" [] "X" 0

/-- A registration transaction without a `timestamp` key, as the remote
admission path pools it. -/
def t8 : Tx :=
  { blankTx with
      type := some "PATIENT_REGISTRATION", patient_id := some "p8" }

/-- A node state with genesis chain and empty pool. -/
def st8 : NodeState := ⟨[gBlock], [], initialBalances⟩

/-- A consultation by dr_alice for patient p1 ordering a blood test. -/
def txConsult : Tx :=
  { blankTx with
      type := some "DOCTOR_CONSULTATION", patient_id := some "p1",
      doctor := some "dr_alice", tests_ordered := some ["Blood Test"],
      timestamp := some "tc" }

/-- Block 1 carrying the consultation. -/
def bConsult : Block := mkBlock 1 "t1c" [txConsult] gBlock.hash 0

/-- The lab result answering the ordered blood test. -/
def txLab : Tx :=
  { blankTx with
      type := some "LAB_TEST_RESULT", patient_id := some "p1",
      test_name := some "Blood Test", timestamp := some "tl" }

/-- Block 2 carrying the lab result, linked after the consultation. -/
def bLab : Block := mkBlock 2 "t2l" [txLab] bConsult.hash 0

/-- The three-block chain after the lab-result block is accepted. -/
def chain9 : List Block := [gBlock, bConsult, bLab]

/-- The node state about to mine the pooled lab result. -/
def st9 : NodeState := ⟨[gBlock, bConsult], [txLab], initialBalances⟩

theorem bget_bset (b : Balances) (k : Option String) (v : Int) (p : Option String) :
    bget (bset b k v) p = if k = p then v else bget b p := by
  induction b with
  | nil =>
    simp only [bset, bget]
  | cons hd tl ih =>
    obtain ⟨k', v'⟩ := hd
    by_cases hk : k' = k
    · subst hk
      simp only [bset, if_pos rfl, bget]
      by_cases hp : k' = p <;> simp [hp]
    · simp only [bset, if_neg hk, bget, ih]
      by_cases hp : k' = p
      · subst hp
        have : ¬ k = k' := fun h => hk h.symm
        simp [this]
      · simp [hp]

theorem bget_absent (b : Balances) (k : Option String)
    (h : containsKey b k = false) : bget b k = 0 := by
  induction b with
  | nil => simp [bget]
  | cons hd tl ih =>
    obtain ⟨k', v'⟩ := hd
    simp only [containsKey, Bool.or_eq_false_iff, decide_eq_false_iff_not] at h
    simp only [bget, if_neg h.1]
    exact ih h.2

theorem bget_append (b c : Balances) (p : Option String) :
    bget (b ++ c) p = if containsKey b p then bget b p else bget c p := by
  induction b with
  | nil => simp [bget, containsKey]
  | cons hd tl ih =>
    obtain ⟨k', v'⟩ := hd
    by_cases hp : k' = p
    · subst hp
      simp [bget, containsKey]
    · simp [bget, containsKey, hp, ih]

theorem bget_ensure (b : Balances) (k : Option String) (p : Option String) :
    bget (ensureKey b k) p = bget b p := by
  unfold ensureKey
  by_cases h : containsKey b k
  · simp [h]
  · simp only [h, Bool.false_eq_true, if_neg, ite_false]
    rw [bget_append]
    by_cases hp : containsKey b p
    · simp [hp]
    · simp only [hp, Bool.false_eq_true, if_false]
      rw [bget_absent b p (by simpa using hp)]
      by_cases hkp : k = p
      · subst hkp
        simp [bget]
      · simp [bget, hkp]

theorem bget_applyGet (b : Balances) (s r : Option String) (a : Int) (p : Option String) :
    bget (applyTransferGet b s r a) p =
      if r = p then (if s = r then bget b s - a else bget b r) + a
      else if s = p then bget b s - a else bget b p := by
  simp only [applyTransferGet, bget_bset]

theorem bget_applyEnsure (b : Balances) (s r : Option String) (a : Int) (p : Option String) :
    bget (applyTransferEnsure b s r a) p =
      if r = p then (if s = r then bget b s - a else bget b r) + a
      else if s = p then bget b s - a else bget b p := by
  simp only [applyTransferEnsure, bget_bset, bget_ensure]

theorem bget_applyEnsure_eq_applyGet (b : Balances) (s r : Option String) (a : Int)
    (p : Option String) :
    bget (applyTransferEnsure b s r a) p = bget (applyTransferGet b s r a) p := by
  rw [bget_applyGet, bget_applyEnsure]

theorem bget_transferStep (bal bal' : Balances) (tx : Tx)
    (h : ∀ q, bget bal q = bget bal' q) (p : Option String) :
    bget (transferStep bal tx) p = bget (transferStepGet bal' tx) p := by
  by_cases ht : tx.type = some TX_TRANSFER_ECASH
  · simp only [transferStep, transferStepGet, ht, ite_true]
    rw [bget_applyEnsure, bget_applyGet]
    simp only [h]
  · simp [transferStep, transferStepGet, ht, h]

theorem bget_foldl_step (l : List Tx) :
    ∀ bal bal', (∀ q, bget bal q = bget bal' q) →
    ∀ p, bget (l.foldl transferStep bal) p = bget (l.foldl transferStepGet bal') p := by
  induction l with
  | nil => intro bal bal' h p; simpa using h p
  | cons tx rest ih =>
    intro bal bal' h p
    simp only [List.foldl_cons]
    exact ih (transferStep bal tx) (transferStepGet bal' tx)
      (fun q => bget_transferStep bal bal' tx h q) p

theorem balSum_bset (b : Balances) (k : Option String) (v : Int) :
    balSum (bset b k v) = balSum b + v - bget b k := by
  induction b with
  | nil => simp [bset, balSum, bget]
  | cons hd tl ih =>
    obtain ⟨k', v'⟩ := hd
    by_cases hk : k' = k
    · subst hk
      simp [bset, balSum, bget]
      ring
    · simp only [bset, if_neg hk, balSum, List.map_cons, List.sum_cons, bget] at *
      rw [ih]
      ring

theorem balSum_append (b c : Balances) : balSum (b ++ c) = balSum b + balSum c := by
  simp [balSum]

theorem balSum_ensure (b : Balances) (k : Option String) :
    balSum (ensureKey b k) = balSum b := by
  unfold ensureKey
  by_cases h : containsKey b k
  · simp [h]
  · simp [h, balSum_append, balSum]

theorem balSum_applyEnsure (b : Balances) (s r : Option String) (a : Int) :
    balSum (applyTransferEnsure b s r a) = balSum b := by
  simp only [applyTransferEnsure, balSum_bset, balSum_ensure]
  ring

theorem balSum_transferStep (b : Balances) (tx : Tx) :
    balSum (transferStep b tx) = balSum b := by
  unfold transferStep
  by_cases ht : tx.type = some TX_TRANSFER_ECASH
  · simp [ht, balSum_applyEnsure]
  · simp [ht]

theorem balSum_foldl (l : List Tx) : ∀ b : Balances,
    balSum (l.foldl transferStep b) = balSum b := by
  induction l with
  | nil => intro b; rfl
  | cons tx rest ih =>
    intro b
    simp only [List.foldl_cons, ih, balSum_transferStep]

theorem balSum_chain_replay (chain : List Block) :
    balSum (chain_replay chain) = balSum initialBalances := by
  unfold chain_replay
  induction chain using List.reverseRecOn with
  | nil => rfl
  | append_singleton c b ih =>
    rw [List.foldl_append]
    simp only [List.foldl_cons, List.foldl_nil, balSum_foldl]
    exact ih

/-- Claim C10: total supply is conserved. The sum of all balances produced
by the full ledger recomputation (`_recalculate_all_balances`) equals the
system account's fixed initial allocation of 1,000,000 for every chain,
and the incremental per-block update (`_update_balances_from_block`)
preserves the sum of any balance dictionary. -/
theorem C10_total_supply_conserved :
    (∀ chain : List Block,
      balSum (recalculate_all_balances chain) = INITIAL_SYSTEM_BALANCE)
    ∧ (∀ (bal : Balances) (blk : Block),
      balSum (update_balances_from_block bal blk) = balSum bal) := by
  constructor
  · intro chain
    unfold recalculate_all_balances
    rw [balSum_chain_replay]
    decide
  · intro bal blk
    exact balSum_foldl blk.transactions bal

theorem validateTxsFrom_append (xs ys : List Tx) : ∀ bal : Balances,
    validateTxsFrom bal (xs ++ ys) =
      (validateTxsFrom bal xs).bind (fun m => validateTxsFrom m ys) := by
  induction xs with
  | nil => intro bal; simp [validateTxsFrom]
  | cons tx rest ih =>
    intro bal
    by_cases ht : tx.type = some TX_TRANSFER_ECASH
    · by_cases hg : tx.from_ ≠ some SYSTEM_ACCOUNT ∧ bget bal tx.from_ < tx.amount.getD 0
      · simp [validateTxsFrom, ht, hg]
      · simp [validateTxsFrom, ht, hg, ih]
    · simp [validateTxsFrom, ht, ih]

theorem validateChainFrom_flatten (chain : List Block) : ∀ bal : Balances,
    validateChainFrom bal chain = validateTxsFrom bal (allTxs chain) := by
  induction chain with
  | nil => intro bal; simp [validateChainFrom, allTxs, validateTxsFrom]
  | cons b rest ih =>
    intro bal
    have hflat : allTxs (b :: rest) = b.transactions ++ allTxs rest := by
      simp [allTxs]
    rw [hflat, validateTxsFrom_append]
    simp only [validateChainFrom]
    cases h : validateTxsFrom bal b.transactions with
    | none => simp
    | some bal2 => simp [ih bal2]

theorem nonneg_applyGet (b : Balances) (s r : Option String) (a : Int)
    (hb : ∀ p, p ≠ some SYSTEM_ACCOUNT → 0 ≤ bget b p) (ha : 0 ≤ a)
    (hcheck : s = some SYSTEM_ACCOUNT ∨ a ≤ bget b s) :
    ∀ p, p ≠ some SYSTEM_ACCOUNT → 0 ≤ bget (applyTransferGet b s r a) p := by
  intro p hp
  rw [bget_applyGet]
  have hbp := hb p hp
  split_ifs with h1 h2 h3
  · have hs : s ≠ some SYSTEM_ACCOUNT := by rw [h2, h1]; exact hp
    have hbs := hb s hs
    omega
  · have hbr := hb r (h1 ▸ hp)
    omega
  · have hs : s ≠ some SYSTEM_ACCOUNT := h3 ▸ hp
    rcases hcheck with hsys | hle
    · exact absurd hsys hs
    · omega
  · exact hbp

theorem validate_prefix_nonneg (txs : List Tx) : ∀ bal : Balances,
    (∀ p, p ≠ some SYSTEM_ACCOUNT → 0 ≤ bget bal p) →
    (∀ tx ∈ txs, tx.type = some TX_TRANSFER_ECASH → 0 ≤ tx.amount.getD 0) →
    (validateTxsFrom bal txs).isSome = true →
    ∀ l₁ l₂ : List Tx, txs = l₁ ++ l₂ →
    ∀ p, p ≠ some SYSTEM_ACCOUNT → 0 ≤ bget (l₁.foldl transferStepGet bal) p := by
  induction txs with
  | nil =>
    intro bal hb _ _ l₁ l₂ hsplit p hp
    have : l₁ = [] := by
      cases l₁ with
      | nil => rfl
      | cons x xs => simp at hsplit
    subst this
    exact hb p hp
  | cons tx rest ih =>
    intro bal hb hpos hval l₁ l₂ hsplit p hp
    by_cases ht : tx.type = some TX_TRANSFER_ECASH
    · by_cases hg : tx.from_ ≠ some SYSTEM_ACCOUNT ∧ bget bal tx.from_ < tx.amount.getD 0
      · rw [validateTxsFrom, if_pos ht, if_pos hg] at hval
        simp at hval
      · rw [validateTxsFrom, if_pos ht, if_neg hg] at hval
        have hcheck : tx.from_ = some SYSTEM_ACCOUNT ∨
            tx.amount.getD 0 ≤ bget bal tx.from_ := by
          by_cases hs : tx.from_ = some SYSTEM_ACCOUNT
          · exact Or.inl hs
          · right
            by_contra hlt
            exact hg ⟨hs, by omega⟩
        have ha : 0 ≤ tx.amount.getD 0 := hpos tx (List.mem_cons_self tx rest) ht
        have hb2 := nonneg_applyGet bal tx.from_ tx.to_ (tx.amount.getD 0) hb ha hcheck
        cases l₁ with
        | nil =>
          simpa using hb p hp
        | cons y l₁' =>
          rw [List.cons_append] at hsplit
          have hy : tx = y := (List.cons.injEq _ _ _ _).mp hsplit |>.1
          have hrest : rest = l₁' ++ l₂ := (List.cons.injEq _ _ _ _).mp hsplit |>.2
          subst hy
          simp only [List.foldl_cons]
          have hstep : transferStepGet bal tx =
              applyTransferGet bal tx.from_ tx.to_ (tx.amount.getD 0) := by
            simp [transferStepGet, ht]
          rw [hstep]
          exact ih _ hb2 (fun t htm => hpos t (List.mem_cons_of_mem tx htm)) hval
            l₁' l₂ hrest p hp
    · rw [validateTxsFrom, if_neg ht] at hval
      cases l₁ with
      | nil => simpa using hb p hp
      | cons y l₁' =>
        rw [List.cons_append] at hsplit
        have hy : tx = y := (List.cons.injEq _ _ _ _).mp hsplit |>.1
        have hrest : rest = l₁' ++ l₂ := (List.cons.injEq _ _ _ _).mp hsplit |>.2
        subst hy
        simp only [List.foldl_cons]
        have hstep : transferStepGet bal tx = bal := by simp [transferStepGet, ht]
        rw [hstep]
        exact ih _ hb (fun t htm => hpos t (List.mem_cons_of_mem tx htm)) hval
          l₁' l₂ hrest p hp

theorem initial_nonneg : ∀ p, p ≠ some SYSTEM_ACCOUNT → 0 ≤ bget initialBalances p := by
  intro p _
  simp only [initialBalances, bget, INITIAL_SYSTEM_BALANCE]
  split_ifs <;> norm_num

/-- Counterexample to claim C2 as stated: the one-block chain `cBad`
carries a `TransferEcash` of amount −100 from `u1` to `u2`; the
affordability check `current.get(sender, 0) < amount` is vacuous for a
negative amount, so `_validate_chain_balances` accepts the chain, yet the
documented replay leaves the non-system principal `u2` at −100. -/
theorem C2_counterexample :
    validate_chain_balances cBad = true ∧
    (some "u2" : Option String) ≠ some SYSTEM_ACCOUNT ∧
    bget (recalculate_all_balances cBad) (some "u2") < 0 := by
  refine ⟨by decide, by decide, by decide⟩

/-- Claim C2, amended: on every chain whose `TransferEcash` transactions
all carry nonnegative amounts (as every transaction admitted through the
pool does — admission requires a strictly positive integer amount), if
`_validate_chain_balances` returns true then replaying all transfers in
block order then transaction order from the documented initial allocation
(zero for the known users, 1,000,000 for the system account) never leaves
any non-system principal with a negative balance at any intermediate point
of the replay. The amendment excludes exactly the negative-amount
transfers exhibited by `C2_counterexample`. -/
theorem C2_amended_no_negative_balance (chain : List Block)
    (hval : validate_chain_balances chain = true)
    (hpos : ∀ tx ∈ allTxs chain, tx.type = some TX_TRANSFER_ECASH →
      0 ≤ tx.amount.getD 0)
    (l₁ l₂ : List Tx) (hsplit : allTxs chain = l₁ ++ l₂) :
    ∀ p, p ≠ some SYSTEM_ACCOUNT →
      0 ≤ bget (l₁.foldl transferStep initialBalances) p := by
  intro p hp
  have hsome : (validateTxsFrom initialBalances (allTxs chain)).isSome = true := by
    unfold validate_chain_balances at hval
    rw [validateChainFrom_flatten] at hval
    exact hval
  have := validate_prefix_nonneg (allTxs chain) initialBalances initial_nonneg
    hpos hsome l₁ l₂ hsplit p hp
  rw [bget_foldl_step l₁ initialBalances initialBalances (fun _ => rfl) p]
  exact this

/-- Witness for `C2_amended_no_negative_balance` at the concrete chain
`cGood` (genesis plus a system transfer of 100 to the doctor): after the
full replay the doctor's balance is nonnegative. -/
theorem C2_amended_witness :
    0 ≤ bget ((allTxs cGood).foldl transferStep initialBalances) (some "dr_alice") :=
  C2_amended_no_negative_balance cGood (by decide) (by decide)
    (allTxs cGood) [] (List.append_nil _).symm (some "dr_alice") (by decide)

theorem resolve_conflicts_intended_spec (st : NodeState) (received : List Block) :
    (received.length ≤ st.chain.length →
      resolve_conflicts_intended st received = (st, false))
    ∧ ((resolve_conflicts_intended st received).2 = true ↔
        (st.chain.length < received.length ∧ is_chain_valid received none = true ∧
         validate_chain_balances received = true))
    ∧ ((resolve_conflicts_intended st received).2 = true →
        (resolve_conflicts_intended st received).1.chain = received
        ∧ (∀ tx : Tx, tx ∈ (resolve_conflicts_intended st received).1.pending ↔
            tx ∈ st.pending ∧ tx ∉ allTxs received)
        ∧ (resolve_conflicts_intended st received).1.balances =
            recalculate_all_balances received)
    ∧ ((resolve_conflicts_intended st received).2 = false →
        (resolve_conflicts_intended st received).1 = st) := by
  by_cases hlen : st.chain.length < received.length
  · by_cases hv : (is_chain_valid received none && validate_chain_balances received) = true
    · have hr : resolve_conflicts_intended st received =
          (⟨received, reconcile_pending st.pending received,
            recalculate_all_balances received⟩, true) := by
        unfold resolve_conflicts_intended
        rw [if_pos hlen, if_pos hv]
      rw [hr]
      have hv' : is_chain_valid received none = true ∧
          validate_chain_balances received = true := by simpa using hv
      obtain ⟨hv1, hv2⟩ := hv'
      refine ⟨fun h => absurd hlen (by omega), ?_, ?_, ?_⟩
      · simp [hlen, hv1, hv2]
      · intro _
        refine ⟨rfl, ?_, rfl⟩
        intro tx
        simp [reconcile_pending, List.mem_filter]
      · intro h
        simp at h
    · have hr : resolve_conflicts_intended st received = (st, false) := by
        unfold resolve_conflicts_intended
        rw [if_pos hlen, if_neg (by simpa using hv)]
      rw [hr]
      refine ⟨fun _ => rfl, ?_, ?_, fun _ => rfl⟩
      · constructor
        · intro h; simp at h
        · intro ⟨_, h1, h2⟩
          exact absurd (by rw [h1, h2]; rfl) hv
      · intro h; simp at h
  · have hr : resolve_conflicts_intended st received = (st, false) := by
      unfold resolve_conflicts_intended
      rw [if_neg hlen]
    rw [hr]
    refine ⟨fun _ => rfl, ?_, ?_, fun _ => rfl⟩
    · constructor
      · intro h; simp at h
      · intro ⟨h, _, _⟩; exact absurd h hlen
    · intro h; simp at h

/-- Claim C1 names a real code bug: `resolve_conflicts` holds the
non-reentrant `self.lock` (node_common.py line 285) when, on the
replacement path, `_recalculate_all_balances` re-acquires it (line 315).
Concretely: receiving the strictly longer valid chain `chainR` replaces
the chain and reconciles the pool (the pooled registration leaves it), but
then the node freezes — `replaced = True` and the return never execute;
receiving `cGood` (which carries a 100-unit system transfer to dr_alice)
likewise freezes with the cached ledger still reading 0 for dr_alice,
whereas the from-scratch recomputation the claim asserts would read 100
(as the lock-erased intended semantics does); an equal-length offer is
ignored and returns normally. -/
theorem C1_resolve_deadlock :
    resolve_conflicts st1 chainR = ⟨⟨chainR, [], initialBalances⟩, false, true⟩
    ∧ resolve_conflicts st3 cGood = ⟨⟨cGood, [], initialBalances⟩, false, true⟩
    ∧ bget (recalculate_all_balances cGood) (some "dr_alice") = 100
    ∧ bget (resolve_conflicts st3 cGood).state.balances (some "dr_alice") = 0
    ∧ resolve_conflicts st3 [gBlock] = ⟨st3, false, false⟩
    ∧ (resolve_conflicts_intended st3 cGood).1.balances =
        recalculate_all_balances cGood
    ∧ (resolve_conflicts_intended st3 cGood).2 = true := by
  refine ⟨by decide, by decide, by decide, by decide, by decide, by decide, by decide⟩

/-- Claim C3: on a received `NewBlock`, any failed acceptance check (wrong
next index, `previous_hash` mismatch with the tip, stored-hash mismatch,
or an unaffordable transfer in the parent-snapshot replay) leaves the
chain, pool and ledger unchanged, re-broadcasts nothing, admits no reward,
and sends no error to the originating peer; and a `RequestChain` broadcast
is issued exactly when the index equals the expected next index but
`previous_hash` differs from the tip's hash. -/
theorem C3_new_block_rejection (st : NodeState) (blk : Block) :
    (block_accept_cond st blk = false →
      (process_new_block st blk).1 = st
      ∧ (process_new_block st blk).2.broadcastBlock = false
      ∧ (process_new_block st blk).2.rewards = []
      ∧ (process_new_block st blk).2.errorToOrigin = false)
    ∧ ((process_new_block st blk).2.requestChain = true ↔
        ∃ latest, st.chain.getLast? = some latest ∧
          blk.index = latest.index + 1 ∧ blk.previous_hash ≠ latest.hash) := by
  cases hl : st.chain.getLast? with
  | none =>
    by_cases h1 : blk.index = 0
    · by_cases h2 : blk.hash = blk.calcHash
      · by_cases h3 : (validateTxsFrom
            (get_balances_up_to_block st.chain blk.previous_hash)
            blk.transactions).isSome = true
        · constructor
          · intro hcond
            exfalso
            rw [block_accept_cond, hl] at hcond
            simp [h1, h2, h3] at hcond
          · have hp : process_new_block st blk = accept_block st blk := by
              rw [process_new_block, hl]
              simp [h1, h2, h3]
            rw [hp]
            simp [accept_block, hl]
        · have hp : process_new_block st blk = (st, noEffects) := by
            rw [process_new_block, hl]
            simp [h1, h2, h3]
          rw [hp]
          simp [noEffects, hl]
      · have hp : process_new_block st blk = (st, noEffects) := by
          rw [process_new_block, hl]
          simp [h1, h2]
        rw [hp]
        simp [noEffects, hl]
    · have hp : process_new_block st blk = (st, noEffects) := by
        rw [process_new_block, hl]
        simp [h1]
      rw [hp]
      simp [noEffects, hl]
  | some latest =>
    by_cases h1 : blk.index = latest.index + 1
    · by_cases h2 : blk.previous_hash = latest.hash
      · by_cases h3 : blk.hash = blk.calcHash
        · by_cases h4 : (validateTxsFrom
              (get_balances_up_to_block st.chain latest.hash)
              blk.transactions).isSome = true
          · constructor
            · intro hcond
              exfalso
              rw [block_accept_cond, hl] at hcond
              simp [h1, h2, h3, h4] at hcond
            · have hp : process_new_block st blk = accept_block st blk := by
                rw [process_new_block, hl]
                simp [h1, h2, h3, h4]
              rw [hp]
              simp [accept_block, hl, h2]
          · have hp : process_new_block st blk = (st, noEffects) := by
              rw [process_new_block, hl]
              simp [h1, h2, h3, h4]
            rw [hp]
            simp [noEffects, hl, h2]
        · have hp : process_new_block st blk = (st, noEffects) := by
            rw [process_new_block, hl]
            simp [h1, h2, h3]
          rw [hp]
          simp [noEffects, hl, h2]
      · have hp : process_new_block st blk =
            (st, { noEffects with requestChain := true }) := by
          rw [process_new_block, hl]
          simp [h1, h2]
        rw [hp]
        refine ⟨fun _ => ⟨rfl, rfl, rfl, rfl⟩, ?_⟩
        simp [noEffects, hl, h1, h2]
    · have hp : process_new_block st blk = (st, noEffects) := by
        rw [process_new_block, hl]
        simp [h1]
      rw [hp]
      simp [noEffects, hl, h1]

/-- Witness for `C3_new_block_rejection`: the wire block with index 5 on a
genesis-only chain fails the index check and is silently dropped. -/
theorem C3_witness :
    (process_new_block st3 blkBad).1 = st3
    ∧ (process_new_block st3 blkBad).2.broadcastBlock = false
    ∧ (process_new_block st3 blkBad).2.rewards = []
    ∧ (process_new_block st3 blkBad).2.errorToOrigin = false :=
  (C3_new_block_rejection st3 blkBad).1 (by decide)

theorem admissible_shape (chain : List Block) (tx : Tx)
    (h : admissible chain tx = true) : valid_tx_shape tx = true := by
  unfold admissible at h
  unfold valid_tx_shape
  by_cases ht : tx.type = some TX_TRANSFER_ECASH
  · simp only [ht, ite_true, Bool.and_eq_true] at h ⊢
    exact ⟨h.1, h.2.1⟩
  · simp only [ht, ite_false, Bool.and_true] at h ⊢
    exact h

theorem admissible_of (chain : List Block) (tx : Tx)
    (hshape : valid_tx_shape tx = true)
    (hn : ¬ (tx.type = some TX_TRANSFER_ECASH ∧ tx.from_ ≠ some SYSTEM_ACCOUNT ∧
        get_current_balance chain tx.from_ < tx.amount.getD 0)) :
    admissible chain tx = true := by
  unfold valid_tx_shape at hshape
  unfold admissible
  by_cases ht : tx.type = some TX_TRANSFER_ECASH
  · simp only [ht, ite_true, Bool.and_eq_true] at hshape ⊢
    refine ⟨hshape.1, hshape.2, ?_⟩
    by_cases hs : tx.from_ ≠ some SYSTEM_ACCOUNT
    · rw [if_pos hs]
      have hle : tx.amount.getD 0 ≤ get_current_balance chain tx.from_ := by
        by_contra hlt
        exact hn ⟨ht, hs, by omega⟩
      exact decide_eq_true hle
    · rw [if_neg hs]
  · simp only [ht, ite_false, Bool.and_true] at hshape ⊢
    exact hshape

theorem admissible_false_reject (chain : List Block) (tx : Tx)
    (hshape : valid_tx_shape tx = true) (hadm : admissible chain tx = false) :
    tx.type = some TX_TRANSFER_ECASH ∧ tx.from_ ≠ some SYSTEM_ACCOUNT ∧
      get_current_balance chain tx.from_ < tx.amount.getD 0 := by
  by_contra hn
  rw [admissible_of chain tx hshape hn] at hadm
  simp at hadm

theorem add_transaction_local_spec (st : NodeState) (now : String) (tx : Tx) :
    (stampTx now tx ∉ st.pending →
      ((add_transaction_local st now tx).1.pending = st.pending ++ [stampTx now tx] ↔
        admissible st.chain tx = true))
    ∧ (admissible st.chain tx = false → (add_transaction_local st now tx).1 = st)
    ∧ (add_transaction_local st now tx).1.chain = st.chain
    ∧ (add_transaction_local st now tx).1.balances = st.balances := by
  have happend : ∀ l : List Tx, ∀ a : Tx, l ≠ l ++ [a] := by
    intro l a h
    have := congrArg List.length h
    simp at this
  by_cases hshape : valid_tx_shape tx = true
  · by_cases hbal : (tx.type = some TX_TRANSFER_ECASH ∧ tx.from_ ≠ some SYSTEM_ACCOUNT ∧
        get_current_balance st.chain tx.from_ < tx.amount.getD 0)
    · have hadd : add_transaction_local st now tx = (st, false) := by
        unfold add_transaction_local
        rw [if_neg (by simp [hshape]), if_pos hbal]
      have hadm : admissible st.chain tx = false := by
        obtain ⟨ht, hs, hlt⟩ := hbal
        have hnle : ¬ (tx.amount.getD 0 ≤ get_current_balance st.chain tx.from_) :=
          not_le.mpr hlt
        simp [admissible, ht, hs, hnle]
      refine ⟨?_, fun _ => by rw [hadd], by rw [hadd], by rw [hadd]⟩
      intro _
      rw [hadd, hadm]
      simp only [Bool.false_eq_true, iff_false]
      exact happend st.pending (stampTx now tx)
    · have hadm : admissible st.chain tx = true := admissible_of st.chain tx hshape hbal
      refine ⟨?_, fun h => by rw [h] at hadm; simp at hadm, ?_, ?_⟩
      · intro hnew
        have hadd : add_transaction_local st now tx =
            ({ st with pending := st.pending ++ [stampTx now tx] }, true) := by
          unfold add_transaction_local
          rw [if_neg (by simp [hshape]), if_neg hbal]
          simp only [hnew, ite_false, if_neg (by exact hnew)]
        rw [hadd, hadm]
        simp
      · unfold add_transaction_local
        rw [if_neg (by simp [hshape]), if_neg hbal]
        by_cases hnew : stampTx now tx ∈ st.pending
        · rw [if_pos hnew]
        · rw [if_neg hnew]
      · unfold add_transaction_local
        rw [if_neg (by simp [hshape]), if_neg hbal]
        by_cases hnew : stampTx now tx ∈ st.pending
        · rw [if_pos hnew]
        · rw [if_neg hnew]
  · have hadm : admissible st.chain tx = false := by
      by_contra h
      exact hshape (admissible_shape st.chain tx (by simpa using h))
    have hadd : add_transaction_local st now tx = (st, false) := by
      unfold add_transaction_local
      rw [if_pos (by simpa using hshape)]
    refine ⟨?_, fun _ => by rw [hadd], by rw [hadd], by rw [hadd]⟩
    intro _
    rw [hadd, hadm]
    simp only [Bool.false_eq_true, iff_false]
    exact happend st.pending (stampTx now tx)

theorem process_new_transaction_spec (st : NodeState) (tx : Tx) :
    ((process_new_transaction st tx).deadlocked = true ↔
      (valid_tx_shape tx = true ∧ tx ∉ st.pending ∧
        tx.type = some TX_TRANSFER_ECASH ∧ tx.from_ ≠ some SYSTEM_ACCOUNT))
    ∧ ((process_new_transaction st tx).deadlocked = true →
        (process_new_transaction st tx).state = st) := by
  by_cases hshape : valid_tx_shape tx = true
  · by_cases hmem : tx ∈ st.pending
    · have hp : process_new_transaction st tx = ⟨st, false, false⟩ := by
        unfold process_new_transaction
        rw [if_neg (by simp [hshape]), if_pos hmem]
      rw [hp]
      exact ⟨by simp [hmem], by intro h; simp at h⟩
    · by_cases hfr : tx.type = some TX_TRANSFER_ECASH ∧ tx.from_ ≠ some SYSTEM_ACCOUNT
      · have hp : process_new_transaction st tx = ⟨st, false, true⟩ := by
          unfold process_new_transaction
          rw [if_neg (by simp [hshape]), if_neg hmem, if_pos hfr]
        rw [hp]
        exact ⟨by simp [hshape, hmem, hfr.1, hfr.2], fun _ => rfl⟩
      · have hp : process_new_transaction st tx =
            ⟨{ st with pending := st.pending ++ [tx] }, true, false⟩ := by
          unfold process_new_transaction
          rw [if_neg (by simp [hshape]), if_neg hmem, if_neg hfr]
        rw [hp]
        refine ⟨?_, by intro h; simp at h⟩
        simp only [Bool.false_eq_true, false_iff]
        intro ⟨_, _, h3, h4⟩
        exact hfr ⟨h3, h4⟩
  · have hp : process_new_transaction st tx = ⟨st, false, false⟩ := by
      unfold process_new_transaction
      rw [if_pos (by simpa using hshape)]
    rw [hp]
    exact ⟨by simp [hshape], by intro h; simp at h⟩

/-- Claim C4 names a real code bug: the admission rule it states is
implemented exactly by the local path (`add_transaction_local`, whose
balance check runs before the lock — see `add_transaction_local_spec`),
but the remote path holds the non-reentrant `self.lock` (node_common.py
line 180) when `get_current_balance` → `_get_balances_from_chain`
re-acquires it (line 344). Concretely: the transfer `txA` (dr_alice, who
holds 100 on the chain, sends 50) is admissible by every stated check and
is indeed appended by the local path, yet its remote submission freezes
the node — it is neither appended nor rejected, the pool is only
vacuously unchanged, and nothing is ever gossiped; a remote non-transfer
(`t8`) still completes and is appended. -/
theorem C4_admission_deadlock :
    admissible stC4.chain txA = true
    ∧ process_new_transaction stC4 txA = ⟨stC4, false, true⟩
    ∧ (add_transaction_local stC4 "ta2" txA).1 =
        ⟨stC4.chain, [txA], stC4.balances⟩
    ∧ process_new_transaction st8 t8 =
        ⟨⟨[gBlock], [t8], initialBalances⟩, true, false⟩ := by
  refine ⟨by decide, by decide, by decide, by decide⟩

theorem mine_filter_sublist (l : List Tx) : ∀ bal : Balances,
    ((mine_filter bal l).1).Sublist l := by
  induction l with
  | nil => intro bal; simp [mine_filter]
  | cons tx rest ih =>
    intro bal
    by_cases ht : tx.type = some TX_TRANSFER_ECASH
    · by_cases hg : tx.from_ ≠ some SYSTEM_ACCOUNT ∧ bget bal tx.from_ < tx.amount.getD 0
      · simp only [mine_filter, ht, ite_true, if_pos hg]
        exact List.Sublist.cons tx (ih bal)
      · simp only [mine_filter, ht, ite_true, if_neg hg]
        exact List.Sublist.cons₂ tx (ih _)
    · simp only [mine_filter, ht, ite_false, if_neg ht]
      exact List.Sublist.cons₂ tx (ih bal)

theorem mine_filter_keeps_nontransfer (l : List Tx) : ∀ bal : Balances, ∀ tx ∈ l,
    tx.type ≠ some TX_TRANSFER_ECASH → tx ∈ (mine_filter bal l).1 := by
  induction l with
  | nil => intro bal tx h; simp at h
  | cons y rest ih =>
    intro bal tx hmem hnt
    rcases List.mem_cons.mp hmem with rfl | hmem'
    · simp only [mine_filter, if_neg hnt]
      exact List.mem_cons_self _ _
    · by_cases ht : y.type = some TX_TRANSFER_ECASH
      · by_cases hg : y.from_ ≠ some SYSTEM_ACCOUNT ∧ bget bal y.from_ < y.amount.getD 0
        · simp only [mine_filter, ht, ite_true, if_pos hg]
          exact ih bal tx hmem' hnt
        · simp only [mine_filter, ht, ite_true, if_neg hg]
          exact List.mem_cons_of_mem y (ih _ tx hmem' hnt)
      · simp only [mine_filter, if_neg ht]
        exact List.mem_cons_of_mem y (ih bal tx hmem' hnt)

theorem mine_block_local_intended_spec (st : NodeState) (now : String) :
    (st.pending = [] → mine_block_local_intended st now = ⟨st, none, [], false, false⟩)
    ∧ (st.chain.getLast? = none →
      mine_block_local_intended st now = ⟨st, none, [], false, false⟩)
    ∧ (∀ latest, st.chain.getLast? = some latest → st.pending ≠ [] →
      ((mine_filter (get_balances_up_to_block st.chain latest.hash) st.pending).1 = [] →
        mine_block_local_intended st now = ⟨st, none, [], false, false⟩)
      ∧ (∀ kept, kept =
          (mine_filter (get_balances_up_to_block st.chain latest.hash) st.pending).1 →
          kept ≠ [] →
          (mine_block_local_intended st now).mined =
            some (mkBlock (latest.index + 1) now kept latest.hash 0)
          ∧ (mkBlock (latest.index + 1) now kept latest.hash 0).previous_hash = latest.hash
          ∧ (mkBlock (latest.index + 1) now kept latest.hash 0).index = latest.index + 1
          ∧ (mkBlock (latest.index + 1) now kept latest.hash 0).transactions = kept
          ∧ (mine_block_local_intended st now).state.chain =
              st.chain ++ [mkBlock (latest.index + 1) now kept latest.hash 0]
          ∧ (∀ tx : Tx, tx ∈ (mine_block_local_intended st now).state.pending ↔
              tx ∈ st.pending ∧ tx ∉ kept)
          ∧ (mine_block_local_intended st now).state.balances =
              update_balances_from_block st.balances
                (mkBlock (latest.index + 1) now kept latest.hash 0)
          ∧ kept.Sublist st.pending
          ∧ (∀ tx ∈ st.pending, tx.type ≠ some TX_TRANSFER_ECASH → tx ∈ kept))) := by
  refine ⟨?_, ?_, ?_⟩
  · intro hp
    unfold mine_block_local_intended
    rw [if_pos hp]
  · intro hl
    unfold mine_block_local_intended
    by_cases hp : st.pending = []
    · rw [if_pos hp]
    · rw [if_neg hp, hl]
  · intro latest hl hp
    constructor
    · intro hk
      unfold mine_block_local_intended
      rw [if_neg hp, hl]
      simp only [hk, ite_true]
    · intro kept hkdef hk
      obtain ⟨k0, ks, hkc⟩ := List.exists_cons_of_ne_nil hk
      have hadd : add_block st.chain (mkBlock (latest.index + 1) now kept latest.hash 0) =
          some (st.chain ++ [mkBlock (latest.index + 1) now kept latest.hash 0]) := by
        unfold add_block
        rw [hl]
        exact if_pos ⟨rfl, rfl⟩
      have hgen : generate_system_transfers_buggy
          (mkBlock (latest.index + 1) now kept latest.hash 0) = none := by
        unfold generate_system_transfers_buggy mkBlock
        rw [hkc]
      have hmine : mine_block_local_intended st now =
          ⟨⟨st.chain ++ [mkBlock (latest.index + 1) now kept latest.hash 0],
            st.pending.filter (fun tx => decide (tx ∉ kept)),
            update_balances_from_block st.balances
              (mkBlock (latest.index + 1) now kept latest.hash 0)⟩,
           some (mkBlock (latest.index + 1) now kept latest.hash 0), [], false, true⟩ := by
        unfold mine_block_local_intended
        rw [if_neg hp, hl]
        simp only [← hkdef, if_neg hk, hadd, hgen]
      rw [hmine]
      refine ⟨rfl, rfl, rfl, rfl, rfl, ?_, rfl, ?_, ?_⟩
      · intro tx
        simp [List.mem_filter]
      · rw [hkdef]
        exact mine_filter_sublist st.pending _
      · intro tx hmem hnt
        rw [hkdef]
        exact mine_filter_keeps_nontransfer st.pending _ tx hmem hnt

/-- Claim C5 names a real code bug: `mine_block_local` holds the
non-reentrant `self.lock` (node_common.py line 257) when
`get_balances_up_to_block` re-acquires it (line 331), so with a non-empty
pool and a tip the call freezes before any filtering — no block is ever
assembled, appended or broadcast and the pool is never purged, contrary to
the claimed production behaviour. Concretely: on the genesis chain with
the pooled registration transaction, the shipped function deadlocks with
the state untouched, while the lock-erased intended semantics (which is
what the claim and spec §4.6 describe, and which
`mine_block_local_intended_spec` characterizes in general) appends the
block carrying the registration, linked to the genesis tip, and empties
the pool. -/
theorem C5_mining_deadlock :
    mine_block_local st1 "tm" = ⟨st1, none, [], true, false⟩
    ∧ (mine_block_local_intended st1 "tm").mined =
        some (mkBlock (gBlock.index + 1) "tm" [txReg] gBlock.hash 0)
    ∧ (mine_block_local_intended st1 "tm").state.chain =
        st1.chain ++ [mkBlock (gBlock.index + 1) "tm" [txReg] gBlock.hash 0]
    ∧ (mine_block_local_intended st1 "tm").state.pending = [] := by
  refine ⟨by decide, by decide, by decide, by decide⟩

theorem getLast?_eq_lastOf (t : List Block) : ∀ p : Block,
    (p :: t).getLast? = some (lastOf p t) := by
  induction t with
  | nil => intro p; rfl
  | cons x xs ih =>
    intro p
    rw [List.getLast?_cons_cons]
    exact ih x

theorem linksFrom_append (t : List Block) : ∀ p b, linksFrom p t = true →
    b.previous_hash = (lastOf p t).hash → b.index = (lastOf p t).index + 1 →
    linksFrom p (t ++ [b]) = true := by
  induction t with
  | nil =>
    intro p b _ h1 h2
    simp only [lastOf] at h1 h2
    simp [linksFrom, h1, h2]
  | cons x xs ih =>
    intro p b h h1 h2
    simp only [lastOf] at h1 h2
    unfold linksFrom at h
    by_cases hprev : x.previous_hash = p.hash
    · by_cases hidx : x.index = p.index + 1
      · rw [if_neg (by simp [hprev]), if_neg (by simp [hidx])] at h
        rw [List.cons_append]
        unfold linksFrom
        rw [if_neg (by simp [hprev]), if_neg (by simp [hidx])]
        exact ih x b h h1 h2
      · rw [if_neg (by simp [hprev]), if_pos (by simp [hidx])] at h
        simp at h
    · rw [if_pos (by simp [hprev])] at h
      simp at h

theorem reachable_shape (c : List Block) (h : ReachableAdd c) :
    c = [] ∨ ∃ b0 t, c = b0 :: t ∧ b0.index = 0 ∧ linksFrom b0 t = true := by
  induction h with
  | nil => exact Or.inl rfl
  | step c b c' hc hadd ih =>
    rcases ih with rfl | ⟨b0, t, rfl, hidx, hlinks⟩
    · have hadd' : (if b.index = 0 then some [b] else none) = some c' := hadd
      by_cases hi : b.index = 0
      · rw [if_pos hi] at hadd'
        have hc' : c' = [b] := by
          injection hadd' with h'
          exact h'.symm
        right
        exact ⟨b, [], hc', hi, rfl⟩
      · rw [if_neg hi] at hadd'
        simp at hadd'
    · unfold add_block at hadd
      rw [getLast?_eq_lastOf] at hadd
      have hadd' : (if b.previous_hash = (lastOf b0 t).hash ∧
          b.index = (lastOf b0 t).index + 1 then
            some (b0 :: (t ++ [b])) else none) = some c' := hadd
      by_cases hcond : b.previous_hash = (lastOf b0 t).hash ∧
          b.index = (lastOf b0 t).index + 1
      · rw [if_pos hcond] at hadd'
        have hc' : c' = b0 :: (t ++ [b]) := by
          injection hadd' with h'
          exact h'.symm
        right
        exact ⟨b0, t ++ [b], hc', hidx,
          linksFrom_append t b0 b hlinks hcond.1 hcond.2⟩
      · rw [if_neg hcond] at hadd'
        simp at hadd'

theorem validLinks_of_linksFrom (t : List Block) : ∀ p, linksFrom p t = true →
    (∀ b ∈ t, b.hash = b.calcHash) → validLinks p t = true := by
  induction t with
  | nil => intro p _ _; rfl
  | cons x xs ih =>
    intro p hlinks hhash
    unfold linksFrom at hlinks
    by_cases hprev : x.previous_hash = p.hash
    · by_cases hidx : x.index = p.index + 1
      · rw [if_neg (by simp [hprev]), if_neg (by simp [hidx])] at hlinks
        have hx : x.hash = x.calcHash := hhash x (List.mem_cons_self x xs)
        unfold validLinks
        rw [if_neg (by simp [hx]), if_neg (by simp [hprev]),
          if_neg (by simp [hidx])]
        exact ih x hlinks (fun b hb => hhash b (List.mem_cons_of_mem x hb))
      · rw [if_neg (by simp [hprev]), if_pos (by simp [hidx])] at hlinks
        simp at hlinks
    · rw [if_pos (by simp [hprev])] at hlinks
      simp at hlinks

/-- Counterexample to claim C6 as stated: `add_block` on the empty chain
accepts any block with index 0 regardless of its `previous_hash` (and
never checks the stored hash), so the one-block chain `[badB]` — whose
`previous_hash` is `"X"`, not the genesis sentinel `"0"` — is built
exclusively through `add_block` from the empty chain yet fails
`is_chain_valid`. -/
theorem C6_counterexample :
    ReachableAdd [badB] ∧ is_chain_valid [badB] none = false :=
  ⟨ReachableAdd.step [] badB [badB] ReachableAdd.nil (by decide), by decide⟩

/-- Claim C6, amended: a non-empty chain built exclusively through
`add_block` from the empty chain satisfies `is_chain_valid` provided every
appended block's stored hash matches its recomputation and the first
appended block carries the genesis sentinel `previous_hash = "0"` — the
two conditions `add_block` itself never checks, exactly those violated by
`C6_counterexample` (a correctly hashed genesis-shaped first block has
them by construction, as in `create_genesis_block` and
`mine_block_local`). -/
theorem C6_amended_append_valid (c : List Block) (h : ReachableAdd c)
    (hhash : ∀ b ∈ c, b.hash = b.calcHash)
    (hgen : ∀ b0, c.head? = some b0 → b0.previous_hash = "0")
    (hne : c ≠ []) : is_chain_valid c none = true := by
  rcases reachable_shape c h with rfl | ⟨b0, t, rfl, hidx, hlinks⟩
  · exact absurd rfl hne
  · have h0 : b0.previous_hash = "0" := hgen b0 rfl
    have hh0 : b0.hash = b0.calcHash := hhash b0 (List.mem_cons_self b0 t)
    show (if b0.index ≠ 0 ∨ b0.previous_hash ≠ "0" then false
      else if b0.hash ≠ b0.calcHash then false else validLinks b0 t) = true
    rw [if_neg (by simp [hidx, h0]), if_neg (by simp [hh0])]
    exact validLinks_of_linksFrom t b0 hlinks
      (fun b hb => hhash b (List.mem_cons_of_mem b0 hb))

/-- Witness for `C6_amended_append_valid`: the correctly hashed genesis
block appended to the empty chain yields a chain `is_chain_valid`
accepts. -/
theorem C6_witness : is_chain_valid [gBlock] none = true :=
  C6_amended_append_valid [gBlock]
    (ReachableAdd.step [] gBlock [gBlock] ReachableAdd.nil (by decide))
    (by decide) (by decide) (by decide)

theorem validLinks_iff_chain (t : List Block) : ∀ p,
    (validLinks p t = true ↔ List.Chain specLink p t) := by
  induction t with
  | nil => intro p; simp [validLinks]
  | cons x xs ih =>
    intro p
    rw [List.chain_cons, ← ih x]
    have hvl : validLinks p (x :: xs) =
        (if x.hash ≠ x.calcHash then false
         else if x.previous_hash ≠ p.hash then false
         else if x.index ≠ p.index + 1 then false
         else validLinks x xs) := rfl
    rw [hvl]
    by_cases h1 : x.hash = x.calcHash
    · by_cases h2 : x.previous_hash = p.hash
      · by_cases h3 : x.index = p.index + 1
        · rw [if_neg (by simp [h1]), if_neg (by simp [h2]), if_neg (by simp [h3])]
          simp [specLink, h1, h2, h3]
        · rw [if_neg (by simp [h1]), if_neg (by simp [h2]), if_pos (by simp [h3])]
          simp [specLink, h3]
      · rw [if_neg (by simp [h1]), if_pos (by simp [h2])]
        simp [specLink, h2]
    · rw [if_pos (by simp [h1])]
      simp [specLink, h1]

/-- Counterexample to claim C7 as stated: `is_chain_valid` does **not**
return false on every empty argument chain — Python's
`chain_to_validate if chain_to_validate else self.chain` treats the empty
list as falsy, so an explicit empty argument falls back to validating the
node's own chain, here the valid genesis-only chain, and returns true. -/
theorem C7_counterexample : is_chain_valid [gBlock] (some []) = true := by
  decide

/-- Claim C7, amended: an empty (or omitted) chain argument falls back to
validating the node's own chain, so the result is false for an empty
argument only when that fallback fails (in particular the core check on a
definite empty target is false); for every **non-empty** argument chain
the claim holds as stated: the result is false unless the first block is a
correctly hashed genesis (`index = 0`, `previous_hash = "0"`), and is true
exactly when additionally every subsequent block's stored hash matches
recomputation, `previous_hash` equals the prior block's hash and the index
is the prior's plus one; the result is a plain boolean. The amendment
changes only the empty-argument clause exhibited by
`C7_counterexample`. -/
theorem C7_amended_validity (self_chain c : List Block) :
    (is_chain_valid self_chain (some []) = chainValidCore self_chain)
    ∧ (is_chain_valid self_chain none = chainValidCore self_chain)
    ∧ (c ≠ [] → is_chain_valid self_chain (some c) = chainValidCore c)
    ∧ chainValidCore [] = false
    ∧ (∀ b0 t, c = b0 :: t →
        (chainValidCore c = true ↔
          (b0.index = 0 ∧ b0.previous_hash = "0" ∧ b0.hash = b0.calcHash ∧
            List.Chain specLink b0 t))) := by
  refine ⟨rfl, rfl, ?_, rfl, ?_⟩
  · intro hne
    cases c with
    | nil => exact absurd rfl hne
    | cons x xs => rfl
  · intro b0 t hc
    subst hc
    have hcv : chainValidCore (b0 :: t) =
        (if b0.index ≠ 0 ∨ b0.previous_hash ≠ "0" then false
         else if b0.hash ≠ b0.calcHash then false else validLinks b0 t) := rfl
    rw [hcv]
    by_cases h1 : b0.index = 0 ∧ b0.previous_hash = "0"
    · by_cases h2 : b0.hash = b0.calcHash
      · rw [if_neg (by simp [h1.1, h1.2]), if_neg (by simp [h2])]
        rw [validLinks_iff_chain]
        simp [h1.1, h1.2, h2]
      · rw [if_neg (by simp [h1.1, h1.2]), if_pos (by simp [h2])]
        simp [h2]
    · have hcond : b0.index ≠ 0 ∨ b0.previous_hash ≠ "0" := by
        by_contra hn
        push_neg at hn
        exact h1 ⟨hn.1, hn.2⟩
      rw [if_pos hcond]
      simp only [Bool.false_eq_true, false_iff]
      intro hcontra
      exact h1 ⟨hcontra.1, hcontra.2.1⟩

/-- Witness for `C7_amended_validity`: the non-empty argument `[gBlock]`
is validated as itself (not via the fallback), and the core validity of
`[gBlock]` coincides with the spec-side characterization. -/
theorem C7_witness :
    is_chain_valid [badB] (some [gBlock]) = chainValidCore [gBlock]
    ∧ (chainValidCore [gBlock] = true ↔
        (gBlock.index = 0 ∧ gBlock.previous_hash = "0" ∧
          gBlock.hash = gBlock.calcHash ∧ List.Chain specLink gBlock [])) := by
  have h := C7_amended_validity [badB] [gBlock]
  exact ⟨h.2.2.1 (by decide), h.2.2.2.2 gBlock [] rfl⟩

/-- Counterexample to claim C8 as stated: remote admission pools the
unstamped registration `t8` as-is (a non-transfer, so its admission
completes); submitting the encoding-identical `t8` locally then stamps a
fresh timestamp **before** deduplication, so the stamped copy is not
recognized as a duplicate and the pool ends with two entries instead of
one. -/
theorem C8_counterexample :
    (process_new_transaction st8 t8).state.pending = [t8]
    ∧ ((add_transaction_local (process_new_transaction st8 t8).state "t81"
          t8).1.pending).length = 2 :=
  ⟨by decide, by decide⟩

/-- Claim C8, amended: admission is idempotent up to the local timestamp
stamping and up to the remote balance-check deadlock — remotely, a
candidate whose canonical encoding matches a pooled entry is dropped
without effect (the duplicate check runs before the deadlocking balance
lookup, so the drop completes); locally, a candidate whose
timestamp-stamped form matches a pooled entry leaves the state unchanged;
re-submitting the identical transaction locally with the same clock
reading leaves exactly the pool of the first submission; re-submitting it
remotely does so whenever the first remote submission returns at all — a
fresh shape-valid non-system transfer instead freezes the node on its
first submission, before anything is pooled. The amendment exempts only
the stamped-versus-unstamped mismatch exhibited by `C8_counterexample`
and the remote freeze (claim C4). -/
theorem C8_amended_idempotent (st : NodeState) (now : String) (tx : Tx) :
    (stampTx now tx ∈ st.pending → (add_transaction_local st now tx).1 = st)
    ∧ (tx ∈ st.pending → process_new_transaction st tx = ⟨st, false, false⟩)
    ∧ ((add_transaction_local (add_transaction_local st now tx).1 now tx).1.pending =
        (add_transaction_local st now tx).1.pending)
    ∧ ((process_new_transaction st tx).deadlocked = false →
        (process_new_transaction (process_new_transaction st tx).state tx).state.pending =
          (process_new_transaction st tx).state.pending)
    ∧ ((process_new_transaction st tx).deadlocked = true →
        (process_new_transaction st tx).state = st) := by
  have hdupL : ∀ st' : NodeState, stampTx now tx ∈ st'.pending →
      (add_transaction_local st' now tx).1 = st' := by
    intro st' hmem
    unfold add_transaction_local
    by_cases hshape : valid_tx_shape tx = true
    · by_cases hbal : (tx.type = some TX_TRANSFER_ECASH ∧ tx.from_ ≠ some SYSTEM_ACCOUNT ∧
          get_current_balance st'.chain tx.from_ < tx.amount.getD 0)
      · rw [if_neg (by simp [hshape]), if_pos hbal]
      · rw [if_neg (by simp [hshape]), if_neg hbal, if_pos hmem]
    · rw [if_pos (by simpa using hshape)]
  have hdupR : ∀ st' : NodeState, tx ∈ st'.pending →
      process_new_transaction st' tx = ⟨st', false, false⟩ := by
    intro st' hmem
    unfold process_new_transaction
    by_cases hshape : valid_tx_shape tx = true
    · rw [if_neg (by simp [hshape]), if_pos hmem]
    · rw [if_pos (by simpa using hshape)]
  refine ⟨hdupL st, hdupR st, ?_, ?_, ?_⟩
  · by_cases hshape : valid_tx_shape tx = true
    · by_cases hbal : (tx.type = some TX_TRANSFER_ECASH ∧ tx.from_ ≠ some SYSTEM_ACCOUNT ∧
          get_current_balance st.chain tx.from_ < tx.amount.getD 0)
      · have h1 : add_transaction_local st now tx = (st, false) := by
          unfold add_transaction_local
          rw [if_neg (by simp [hshape]), if_pos hbal]
        rw [h1]
        show (add_transaction_local st now tx).1.pending = st.pending
        rw [h1]
      · by_cases hmem : stampTx now tx ∈ st.pending
        · have h1 : add_transaction_local st now tx = (st, false) := by
            unfold add_transaction_local
            rw [if_neg (by simp [hshape]), if_neg hbal, if_pos hmem]
          rw [h1]
          show (add_transaction_local st now tx).1.pending = st.pending
          rw [h1]
        · have h1 : add_transaction_local st now tx =
              ({ st with pending := st.pending ++ [stampTx now tx] }, true) := by
            unfold add_transaction_local
            rw [if_neg (by simp [hshape]), if_neg hbal, if_neg hmem]
          rw [h1]
          show (add_transaction_local
              { st with pending := st.pending ++ [stampTx now tx] } now tx).1.pending =
            ({ st with pending := st.pending ++ [stampTx now tx] } : NodeState).pending
          have hmem2 : stampTx now tx ∈
              ({ st with pending := st.pending ++ [stampTx now tx] } : NodeState).pending :=
            List.mem_append_right _ (List.mem_singleton.mpr rfl)
          rw [hdupL _ hmem2]
    · have h1 : add_transaction_local st now tx = (st, false) := by
        unfold add_transaction_local
        rw [if_pos (by simpa using hshape)]
      rw [h1]
      show (add_transaction_local st now tx).1.pending = st.pending
      rw [h1]
  · intro hnd
    by_cases hshape : valid_tx_shape tx = true
    · by_cases hmem : tx ∈ st.pending
      · rw [hdupR st hmem]
        show (process_new_transaction st tx).state.pending = st.pending
        rw [hdupR st hmem]
      · by_cases hfr : tx.type = some TX_TRANSFER_ECASH ∧ tx.from_ ≠ some SYSTEM_ACCOUNT
        · have h1 : process_new_transaction st tx = ⟨st, false, true⟩ := by
            unfold process_new_transaction
            rw [if_neg (by simp [hshape]), if_neg hmem, if_pos hfr]
          rw [h1] at hnd
          simp at hnd
        · have h1 : process_new_transaction st tx =
              ⟨{ st with pending := st.pending ++ [tx] }, true, false⟩ := by
            unfold process_new_transaction
            rw [if_neg (by simp [hshape]), if_neg hmem, if_neg hfr]
          rw [h1]
          show (process_new_transaction
              { st with pending := st.pending ++ [tx] } tx).state.pending =
            ({ st with pending := st.pending ++ [tx] } : NodeState).pending
          have hmem2 : tx ∈
              ({ st with pending := st.pending ++ [tx] } : NodeState).pending :=
            List.mem_append_right _ (List.mem_singleton.mpr rfl)
          rw [hdupR _ hmem2]
    · have h1 : process_new_transaction st tx = ⟨st, false, false⟩ := by
        unfold process_new_transaction
        rw [if_pos (by simpa using hshape)]
      rw [h1]
      show (process_new_transaction st tx).state.pending = st.pending
      rw [h1]
  · intro hdl
    by_cases hshape : valid_tx_shape tx = true
    · by_cases hmem : tx ∈ st.pending
      · rw [hdupR st hmem]
      · by_cases hfr : tx.type = some TX_TRANSFER_ECASH ∧ tx.from_ ≠ some SYSTEM_ACCOUNT
        · have h1 : process_new_transaction st tx = ⟨st, false, true⟩ := by
            unfold process_new_transaction
            rw [if_neg (by simp [hshape]), if_neg hmem, if_pos hfr]
          rw [h1]
        · have h1 : process_new_transaction st tx =
              ⟨{ st with pending := st.pending ++ [tx] }, true, false⟩ := by
            unfold process_new_transaction
            rw [if_neg (by simp [hshape]), if_neg hmem, if_neg hfr]
          rw [h1] at hdl
          simp at hdl
    · have h1 : process_new_transaction st tx = ⟨st, false, false⟩ := by
        unfold process_new_transaction
        rw [if_pos (by simpa using hshape)]
      rw [h1]

/-- Witness for `C8_amended_idempotent`: the stamped system transfer,
already pooled, is dropped without effect by a second local submission. -/
theorem C8_witness :
    (add_transaction_local ⟨[gBlock], [stampTx "tw" tx4], initialBalances⟩ "tw" tx4).1 =
      ⟨[gBlock], [stampTx "tw" tx4], initialBalances⟩ :=
  (C8_amended_idempotent ⟨[gBlock], [stampTx "tw" tx4], initialBalances⟩ "tw" tx4).1
    (by decide)

/-- Claim C9 names a real code bug: the node never synthesizes or admits
the rewards the claim (and spec §4.9) describe. In
`_generate_system_transfers_for_block` the shipped line
`if not isinstance(tx, dict): continue; patient_id = tx.get('patient_id');`
places the `patient_id` assignment inside the `if` body **after**
`continue`, so it never executes and the following `if not patient_id:`
reads an unbound local, raising `UnboundLocalError` for every accepted
block with at least one dict transaction — and on the shipped call paths
the lock self-deadlock freezes the node even before the generator runs.
Concretely: the lab-result block `bLab` makes the shipped generator raise
(`none`), while its own dead matching logic — the behaviour §4.9
describes — would synthesize exactly the 500-unit system-to-doctor
reward; mining that block deadlocks with no rewards, and even with the
locking slips erased the mining path crashes in reward synthesis with no
rewards. -/
theorem C9_reward_synthesis_crash :
    generate_system_transfers_buggy bLab = none
    ∧ generate_system_transfers_intended chain9 bLab "t9" =
        [lab_reward_tx "dr_alice" "Blood Test" "t9"]
    ∧ (mine_block_local st9 "t2l").deadlocked = true
    ∧ (mine_block_local st9 "t2l").rewards = []
    ∧ (mine_block_local_intended st9 "t2l").crashed = true
    ∧ (mine_block_local_intended st9 "t2l").rewards = [] := by
  refine ⟨rfl, by decide, by decide, by decide, by decide, by decide⟩

end BlockchainLab
